import Mathlib

/-!
Verification of the `commander` file-manager repository against its
natural-language specification.

The repository sources available are `src/lib.rs` (the `main` entry point and
argument parsing) and `src/menu.rs` (context menus and menu bar construction).
Those are embedded faithfully below.  The file-operation engine
(`operation`, `tab1`/`tab2`, trash and archive adapters) is declared in
`lib.rs` as modules but its code is not present; for claims about that engine
the relevant contracts are modelled from the specification text, and each such
definition carries a doc comment starting with `Modelled from the spec:`.
-/

namespace Commander

/-! ### Error taxonomy and operation state machine (spec sections 3, 4.3, 7) -/

/-- Modelled from the spec: the error taxonomy of section 7
`{PermissionDenied, NotFound, AlreadyExists, CrossVolume, InsufficientSpace,
InvalidArchive, PathTraversal, Cancelled, Unknown(platform code)}`.
The operation engine that produces these errors is not under `src/`. -/
inductive ErrorKind where
  | permissionDenied
  | notFound
  | alreadyExists
  | crossVolume
  | insufficientSpace
  | invalidArchive
  | pathTraversal
  | cancelledErr
  | unknown (code : Nat)
  deriving DecidableEq, Repr

/-- Modelled from the spec: `OperationState`, section 3:
`{Queued, Running, Paused, Cancelling, Completed, Failed(ErrorKind), Cancelled}`.
The scheduler holding this state is not under `src/`. -/
inductive OpState where
  | queued
  | running
  | paused
  | cancelling
  | completed
  | failed (e : ErrorKind)
  | cancelled
  deriving DecidableEq, Repr

/-- Modelled from the spec: the per-operation transition relation of
section 4.3.  `Queued → Running`; cancelling a queued operation goes directly
to `Cancelled`; `Running → {Completed, Failed, Paused, Cancelling}`;
`Paused → {Running, Cancelling}`; `Cancelling → Cancelled`.  The state is a
single `OpState` value, so exactly one live state holds at any moment. -/
def canStep : OpState → OpState → Bool
  | .queued, .running => true
  | .queued, .cancelled => true
  | .running, .completed => true
  | .running, .failed _ => true
  | .running, .paused => true
  | .running, .cancelling => true
  | .paused, .running => true
  | .paused, .cancelling => true
  | .cancelling, .cancelled => true
  | _, _ => false

def OpState.isRunning : OpState → Bool
  | .running => true
  | _ => false

def OpState.isCancelling : OpState → Bool
  | .cancelling => true
  | _ => false

def OpState.isCancelled : OpState → Bool
  | .cancelled => true
  | _ => false

def OpState.isCompleted : OpState → Bool
  | .completed => true
  | _ => false

def OpState.isFailed : OpState → Bool
  | .failed _ => true
  | _ => false

def OpState.isPaused : OpState → Bool
  | .paused => true
  | _ => false

/-- C5: every operation's state machine is
`Queued → Running → {Completed | Failed | Cancelled}` (the latter through the
`Cancelling` acknowledgment state), `Paused` is reachable only from `Running`
and returns only to `Running` or `Cancelling`, and transitions are monotonic:
no transition ever leaves a `Cancelled` or `Completed` state.  The state is a
single `OpState` value, so exactly one live state holds at every moment. -/
theorem opState_machine_shape :
    ∀ s : OpState,
      canStep .completed s = false ∧
      canStep .cancelled s = false ∧
      canStep s .paused = s.isRunning ∧
      canStep .paused s = (s.isRunning || s.isCancelling) ∧
      canStep .queued s = (s.isRunning || s.isCancelled) ∧
      canStep .running s =
        (s.isCompleted || s.isFailed || s.isPaused || s.isCancelling) ∧
      canStep .cancelling s = s.isCancelled := by
  intro s
  cases s <;>
    simp [canStep, OpState.isRunning, OpState.isCancelling, OpState.isCancelled,
      OpState.isCompleted, OpState.isFailed, OpState.isPaused]

/-! ### Command-line argument handling (`src/lib.rs`, `main`) -/

/-- Embedding of the argument loop of `main` in `src/lib.rs`: the `daemonize`
flag starts `false`; the only argument that touches it is `"--no-daemon"`,
which re-assigns `false`; every other argument only appends to the location
list and leaves the flag unchanged. -/
def mainDaemonize (args : List String) : Bool :=
  args.foldl (fun daemonize arg => if arg = "--no-daemon" then false else daemonize) false

/-- Embedding of the `if daemonize { ... fork ... }` guard in `main`
(`src/lib.rs`): the daemon branch runs exactly when the flag is `true`
after the argument loop. -/
def daemonBranchTaken (args : List String) : Bool :=
  mainDaemonize args

theorem mainDaemonize_false (args : List String) : mainDaemonize args = false := by
  have h : ∀ l : List String,
      l.foldl (fun daemonize arg => if arg = "--no-daemon" then false else daemonize) false
        = false := by
    intro l
    induction l with
    | nil => rfl
    | cons a t ih => simpa [List.foldl_cons, ite_self] using ih
  simpa [mainDaemonize] using h args

/-- C8: for every command-line argument list, `main()` never daemonizes: the
`daemonize` flag is initialized to `false` and no argument ever sets it to
`true` (`"--no-daemon"` only re-assigns `false`), so the fork/daemon branch
guarded by `if daemonize` is never taken. -/
theorem main_never_daemonizes :
    ∀ args : List String, daemonBranchTaken args = false := by
  intro args
  simpa [daemonBranchTaken] using mainDaemonize_false args

/-! ### Filesystem model for the transfer executor (spec sections 3, 4.2, 8)

The transfer executor (`operation` module) is not under `src/`; the model
below follows the specification: a filesystem is a finite association of
paths (segment lists) to nodes, a copy walks the source subtree and emits
one destination write per source entry, and a move appends the source
deletions strictly after all destination writes. -/

/-- A filesystem path, as a list of name segments. -/
abbrev FsPath := List String

/-- Modelled from the spec: a filesystem node is a regular file with byte
content or a directory. -/
inductive FsNode where
  | file (content : List Nat)
  | dir
  deriving DecidableEq, Repr

/-- Modelled from the spec: a filesystem is a finite association list from
paths to nodes; earlier entries shadow later ones. -/
abbrev Fs := List (FsPath × FsNode)

/-- Look a path up in the filesystem (first matching entry wins). -/
def lookupFs : Fs → FsPath → Option FsNode
  | [], _ => none
  | e :: rest, p => if e.1 = p then some e.2 else lookupFs rest p

/-- Modelled from the spec: a primitive filesystem effect of the transfer
executor — a durable destination write, or a source removal. -/
inductive FsEvent where
  | write (p : FsPath) (n : FsNode)
  | remove (p : FsPath)
  deriving DecidableEq, Repr

def FsEvent.isWrite : FsEvent → Bool
  | .write _ _ => true
  | _ => false

def FsEvent.isRemove : FsEvent → Bool
  | .remove _ => true
  | _ => false

def applyEvent (fs : Fs) : FsEvent → Fs
  | .write p n => (p, n) :: fs
  | .remove p => fs.filter (fun e => !(decide (e.1 = p)))

def applyTrace (fs : Fs) (tr : List FsEvent) : Fs :=
  tr.foldl applyEvent fs

/-- The entries of the subtree rooted at `root` (their paths have `root` as a
prefix). -/
def subEntries (fs : Fs) (root : FsPath) : Fs :=
  fs.filter (fun e => root.isPrefixOf e.1)

/-- Re-root a source-subtree path under the destination. -/
def reroot (src dst : FsPath) (p : FsPath) : FsPath :=
  dst ++ p.drop src.length

/-- Modelled from the spec: a Copy operation walks the source subtree and
performs one destination write per source entry, never touching the source. -/
def copyTrace (fs : Fs) (src dst : FsPath) : List FsEvent :=
  (subEntries fs src).map (fun e => .write (reroot src dst e.1) e.2)

/-- Modelled from the spec: a cross-volume Move is copy-then-delete-source —
the source deletions come strictly after every destination write. -/
def moveTrace (fs : Fs) (src dst : FsPath) : List FsEvent :=
  copyTrace fs src dst ++ (subEntries fs src).map (fun e => .remove e.1)

/-- The filesystem after a successful Copy of the subtree at `src` to `dst`. -/
def runCopy (fs : Fs) (src dst : FsPath) : Fs :=
  applyTrace fs (copyTrace fs src dst)

def nodeBytes : FsNode → Nat
  | .file c => c.length
  | .dir => 0

/-- Number of items of the subtree rooted at `root`. -/
def subtreeCount (fs : Fs) (root : FsPath) : Nat :=
  (subEntries fs root).length

/-- Total byte size of the subtree rooted at `root`. -/
def subtreeBytes (fs : Fs) (root : FsPath) : Nat :=
  ((subEntries fs root).map (fun e => nodeBytes e.2)).sum

theorem applyTrace_writes (l : List (FsPath × FsNode)) :
    ∀ fs : Fs, applyTrace fs (l.map (fun e => FsEvent.write e.1 e.2)) = l.reverse ++ fs := by
  induction l with
  | nil => intro fs; rfl
  | cons e t ih =>
      intro fs
      have hstep : applyTrace fs ((e :: t).map (fun e => FsEvent.write e.1 e.2))
          = applyTrace ((e.1, e.2) :: fs) (t.map (fun e => FsEvent.write e.1 e.2)) := rfl
      rw [hstep, ih ((e.1, e.2) :: fs)]
      simp

theorem subEntries_append (A B : Fs) (r : FsPath) :
    subEntries (A ++ B) r = subEntries A r ++ subEntries B r := by
  unfold subEntries
  exact List.filter_append _ _

theorem runCopy_eq (fs : Fs) (src dst : FsPath) :
    runCopy fs src dst =
      ((subEntries fs src).map (fun e => (reroot src dst e.1, e.2))).reverse ++ fs := by
  have h := applyTrace_writes ((subEntries fs src).map (fun e => (reroot src dst e.1, e.2))) fs
  simp only [List.map_map] at h
  simpa [runCopy, copyTrace, Function.comp] using h

theorem lookupFs_append_of_not_mem (A B : Fs) (p : FsPath)
    (h : ∀ e ∈ A, e.1 ≠ p) : lookupFs (A ++ B) p = lookupFs B p := by
  induction A with
  | nil => rfl
  | cons e t ih =>
      have he : e.1 ≠ p := h e (by simp)
      simp [lookupFs, he]
      exact ih (fun x hx => h x (by simp [hx]))

theorem dst_prefix_reroot (src dst : FsPath) (p : FsPath) :
    dst.isPrefixOf (reroot src dst p) = true := by
  rw [List.isPrefixOf_iff_prefix]
  exact ⟨p.drop src.length, rfl⟩

theorem lookupFs_some_key (fs : Fs) (p : FsPath) (n : FsNode)
    (h : lookupFs fs p = some n) : ∃ x ∈ fs, x.1 = p := by
  induction fs with
  | nil => simp [lookupFs] at h
  | cons a t ih =>
      by_cases hap : a.1 = p
      · exact ⟨a, by simp, hap⟩
      · simp only [lookupFs, hap, if_false] at h
        obtain ⟨x, hx, hxp⟩ := ih h
        exact ⟨x, by simp [hx], hxp⟩

/-- C1: for every Copy or Move, no source path is mutated or deleted before
the corresponding destination write: in the move trace every remove event
comes strictly after every write event.  For a successful Copy into a fresh
destination (no existing entry lies under `dst`), every entry of the original
filesystem — in particular every source file — is still present unmodified
afterwards, and the destination subtree's item count and total byte size equal
the source subtree's. -/
theorem copy_preserves_sources :
    ∀ (fs : Fs) (src dst : FsPath),
      fs.all (fun e => !(dst.isPrefixOf e.1)) = true →
      (∀ p n, lookupFs fs p = some n → lookupFs (runCopy fs src dst) p = some n) ∧
      subtreeCount (runCopy fs src dst) dst = subtreeCount fs src ∧
      subtreeBytes (runCopy fs src dst) dst = subtreeBytes fs src ∧
      (∀ (i j : Nat) (ev1 ev2 : FsEvent), (moveTrace fs src dst)[i]? = some ev1 →
        (moveTrace fs src dst)[j]? = some ev2 →
        ev1.isWrite = true → ev2.isRemove = true → i < j) := by
  intro fs src dst hfresh
  have hfresh' : ∀ e ∈ fs, dst.isPrefixOf e.1 = false := by
    intro e he
    have := List.all_eq_true.mp hfresh e he
    simpa using this
  have hnew : ∀ e ∈ ((subEntries fs src).map
      (fun e => (reroot src dst e.1, e.2))).reverse, dst.isPrefixOf e.1 = true := by
    intro e he
    rw [List.mem_reverse] at he
    obtain ⟨x, _, rfl⟩ := List.mem_map.mp he
    exact dst_prefix_reroot src dst x.1
  have h1 : subEntries fs dst = [] := by
    apply List.filter_eq_nil_iff.mpr
    intro e he
    simp [hfresh' e he]
  have h2 : subEntries (((subEntries fs src).map
        (fun e => (reroot src dst e.1, e.2))).reverse) dst =
      ((subEntries fs src).map (fun e => (reroot src dst e.1, e.2))).reverse := by
    apply List.filter_eq_self.mpr
    intro e he
    exact hnew e he
  refine ⟨?_, ?_, ?_, ?_⟩
  · -- every original entry is still found unchanged
    intro p n hp
    obtain ⟨x, hx, hxp⟩ := lookupFs_some_key fs p n hp
    have hpfalse : dst.isPrefixOf p = false := by rw [← hxp]; exact hfresh' x hx
    have hkeys : ∀ e ∈ ((subEntries fs src).map
        (fun e => (reroot src dst e.1, e.2))).reverse, e.1 ≠ p := by
      intro e he hep
      have hT := hnew e he
      rw [hep, hpfalse] at hT
      exact Bool.false_ne_true hT
    rw [runCopy_eq, lookupFs_append_of_not_mem _ _ _ hkeys]
    exact hp
  · -- destination item count equals source item count
    rw [runCopy_eq]
    simp only [subtreeCount]
    rw [subEntries_append, h1, h2]
    simp
  · -- destination byte total equals source byte total
    rw [runCopy_eq]
    simp only [subtreeBytes]
    rw [subEntries_append, h1, h2]
    simp only [List.append_nil, List.map_reverse, List.sum_reverse, List.map_map]
    rfl
  · -- in a move, every remove comes strictly after every write
    intro i j ev1 ev2 hi hj hw hr
    simp only [moveTrace] at hi hj
    have hiA : i < (copyTrace fs src dst).length := by
      by_contra hcon
      push_neg at hcon
      rw [List.getElem?_append_right hcon] at hi
      have hmem : ev1 ∈ (subEntries fs src).map (fun e => FsEvent.remove e.1) :=
        List.getElem?_mem hi
      obtain ⟨x, _, rfl⟩ := List.mem_map.mp hmem
      simp [FsEvent.isWrite] at hw
    have hjA : (copyTrace fs src dst).length ≤ j := by
      by_contra hcon
      push_neg at hcon
      rw [List.getElem?_append_left hcon] at hj
      have hmem : ev2 ∈ copyTrace fs src dst := List.getElem?_mem hj
      simp only [copyTrace] at hmem
      obtain ⟨x, _, rfl⟩ := List.mem_map.mp hmem
      simp [FsEvent.isRemove] at hr
    omega

/-- A one-file source subtree used to instantiate C1. -/
def fsW : Fs := [(["s", "a"], FsNode.file [1, 2, 3])]

/-- Witness for C1 at a concrete filesystem: copying the subtree at `s` to
the fresh destination `d` keeps the source file readable unchanged, matches
counts and bytes, and the move trace writes before it removes. -/
theorem copy_preserves_sources_witness :
    lookupFs (runCopy fsW ["s"] ["d"]) ["s", "a"] = some (FsNode.file [1, 2, 3]) ∧
      subtreeCount (runCopy fsW ["s"] ["d"]) ["d"] = subtreeCount fsW ["s"] ∧
      subtreeBytes (runCopy fsW ["s"] ["d"]) ["d"] = subtreeBytes fsW ["s"] ∧
      (0 : Nat) < 1 :=
  have h := copy_preserves_sources fsW ["s"] ["d"] (by decide)
  ⟨h.1 ["s", "a"] (FsNode.file [1, 2, 3]) (by decide), h.2.1, h.2.2.1,
    h.2.2.2 0 1 (FsEvent.write ["d", "a"] (FsNode.file [1, 2, 3]))
      (FsEvent.remove ["s", "a"]) (by decide) (by decide) (by decide) (by decide)⟩

/-! ### Archive extraction and path traversal (spec sections 4.5, 7, 8) -/

/-- Modelled from the spec: resolve an archive entry's path against the
destination directory, processing `".."` segments against a stack of the
segments already descended into; popping an empty stack means the entry
escapes the destination, and resolution fails. -/
def resolveGo : List String → List String → Option (List String)
  | acc, [] => some acc.reverse
  | acc, seg :: rest =>
      if seg = ".." then
        match acc with
        | [] => none
        | _ :: acc2 => resolveGo acc2 rest
      else resolveGo (seg :: acc) rest

/-- Modelled from the spec: the destination-relative resolved path of an
archive entry, or `none` when the entry path escapes the destination. -/
def resolveEntryPath (entry : List String) : Option (List String) :=
  resolveGo [] entry

/-- Whether an entry path would escape a directory sitting `d` levels below
the boundary: its running depth (`+1` per name segment, `-1` per `".."`)
drops below zero at some point. -/
def escapesFrom (d : Nat) : List String → Bool
  | [] => false
  | seg :: rest =>
      if seg = ".." then (d == 0) || escapesFrom (d - 1) rest
      else escapesFrom (d + 1) rest

/-- Whether an archive entry's resolved path would escape the destination
directory via `".."` segments. -/
def escapesDestination (entry : List String) : Bool :=
  escapesFrom 0 entry

/-- Modelled from the spec: extracting a single archive entry writes its node
at the resolved path under the destination, and fails with `PathTraversal`
when the entry path escapes the destination directory. -/
def extractEntry (fs : Fs) (dest : FsPath) (entry : List String) (node : FsNode) :
    Except ErrorKind Fs :=
  match resolveEntryPath entry with
  | none => .error .pathTraversal
  | some rel => .ok (applyEvent fs (.write (dest ++ rel) node))

theorem resolveGo_none_iff (entry : List String) :
    ∀ acc : List String, resolveGo acc entry = none ↔ escapesFrom acc.length entry = true := by
  induction entry with
  | nil => intro acc; simp [resolveGo, escapesFrom]
  | cons seg rest ih =>
      intro acc
      by_cases hseg : seg = ".."
      · cases acc with
        | nil => simp [resolveGo, escapesFrom, hseg]
        | cons a acc2 =>
            simp only [resolveGo, escapesFrom, hseg, if_true]
            rw [ih acc2]
            simp
      · simp only [resolveGo, escapesFrom, hseg, if_false]
        rw [ih (seg :: acc)]
        simp

/-- C2: for every archive extraction, an entry whose resolved path would
escape the destination directory (via `".."` segments, e.g.
`../../etc/passwd`) fails with the `PathTraversal` error kind; and whenever
extraction of an entry succeeds, only paths under the destination directory
are written — every path outside the destination is unchanged. -/
theorem extract_rejects_traversal :
    ∀ (fs : Fs) (dest : FsPath) (entry : List String) (node : FsNode),
      (escapesDestination entry = true →
        extractEntry fs dest entry node = .error .pathTraversal) ∧
      (∀ fs2, extractEntry fs dest entry node = .ok fs2 →
        ∀ p : FsPath, dest.isPrefixOf p = false → lookupFs fs2 p = lookupFs fs p) := by
  intro fs dest entry node
  constructor
  · intro hesc
    have hnone : resolveEntryPath entry = none := by
      unfold resolveEntryPath
      rw [resolveGo_none_iff entry []]
      simpa [escapesDestination] using hesc
    simp [extractEntry, hnone]
  · intro fs2 hok p hp
    unfold extractEntry at hok
    cases hres : resolveEntryPath entry with
    | none => rw [hres] at hok; simp at hok
    | some rel =>
        rw [hres] at hok
        simp only [Except.ok.injEq] at hok
        subst hok
        have hne : dest ++ rel ≠ p := by
          intro hcon
          have : dest.isPrefixOf (dest ++ rel) = true := by
            rw [List.isPrefixOf_iff_prefix]
            exact ⟨rel, rfl⟩
          rw [hcon, hp] at this
          exact Bool.false_ne_true this
        simp [applyEvent, lookupFs, hne]

/-- Witness for C2 at the spec's concrete test entry `../../etc/passwd`: the
entry fails with `PathTraversal`; and a successful extraction (entry `a`)
leaves every path outside the destination unchanged. -/
theorem extract_rejects_traversal_witness :
    extractEntry ([] : Fs) ["dest"] ["..", "..", "etc", "passwd"] FsNode.dir
        = Except.error ErrorKind.pathTraversal ∧
      lookupFs (applyEvent ([] : Fs) (FsEvent.write ["dest", "a"] FsNode.dir)) ["x"]
        = lookupFs ([] : Fs) ["x"] :=
  ⟨(extract_rejects_traversal [] ["dest"] ["..", "..", "etc", "passwd"] FsNode.dir).1
      (by decide),
    (extract_rejects_traversal [] ["dest"] ["a"] FsNode.dir).2
      (applyEvent [] (FsEvent.write ["dest", "a"] FsNode.dir)) rfl ["x"] (by decide)⟩

/-! ### KeepBoth name generation (spec sections 4.1, 8)

The conflict resolver (`operation` module) is not under `src/`; the model
below follows the specification: a colliding candidate name receives a
`" (n)"` suffix with `n` starting at 2 and incrementing until free, and a
batch tracks generated names in memory so later candidates cannot collide
with earlier generated names. -/

/-- Decidable membership as a boolean, used in claim statements. -/
def containsQ {α : Type} [DecidableEq α] (l : List α) (a : α) : Bool :=
  l.any (fun b => decide (b = a))

theorem containsQ_iff {α : Type} [DecidableEq α] (l : List α) (a : α) :
    containsQ l a = true ↔ a ∈ l := by
  simp [containsQ, List.any_eq_true]

theorem containsQ_false_iff {α : Type} [DecidableEq α] (l : List α) (a : α) :
    containsQ l a = false ↔ a ∉ l := by
  rw [← containsQ_iff]
  cases containsQ l a <;> simp

/-- The decimal digit character for `d`. -/
def digitChar (d : Nat) : Char := Char.ofNat (48 + d)

/-- Big-endian decimal digits of `n`, fueled so that the definition is
structural (`natReprAuxF fuel n` is the digits of `n` whenever `n ≤ fuel`). -/
def natReprAuxF : Nat → Nat → List Char
  | 0, _ => []
  | fuel + 1, n => if n = 0 then [] else natReprAuxF fuel (n / 10) ++ [digitChar (n % 10)]

/-- Big-endian decimal digits of `n` (empty for 0). -/
def natReprAux (n : Nat) : List Char := natReprAuxF n n

/-- Decimal rendering of a natural number. -/
def natRepr (n : Nat) : String :=
  if n = 0 then "0" else String.mk (natReprAux n)

theorem natReprAuxF_fuel_irrel :
    ∀ f1 f2 n : Nat, n ≤ f1 → n ≤ f2 → natReprAuxF f1 n = natReprAuxF f2 n := by
  intro f1
  induction f1 with
  | zero =>
      intro f2 n h1 _
      have : n = 0 := Nat.le_zero.mp h1
      subst this
      cases f2 <;> simp [natReprAuxF]
  | succ k ih =>
      intro f2 n h1 h2
      by_cases hn : n = 0
      · subst hn
        cases f2 <;> simp [natReprAuxF]
      · have hpos : 0 < n := Nat.pos_of_ne_zero hn
        obtain ⟨j, rfl⟩ : ∃ j, f2 = j + 1 := by
          cases f2 with
          | zero => omega
          | succ j => exact ⟨j, rfl⟩
        simp only [natReprAuxF, hn, if_false]
        have hd : n / 10 < n := Nat.div_lt_self hpos (by norm_num)
        rw [ih j (n / 10) (by omega) (by omega)]

theorem natReprAux_succ (m : Nat) :
    natReprAux (m + 1) = natReprAux ((m + 1) / 10) ++ [digitChar ((m + 1) % 10)] := by
  unfold natReprAux
  have hq : (m + 1) / 10 < m + 1 := Nat.div_lt_self (Nat.succ_pos m) (by norm_num)
  have h1 : natReprAuxF (m + 1) (m + 1)
      = natReprAuxF m ((m + 1) / 10) ++ [digitChar ((m + 1) % 10)] := by
    simp [natReprAuxF]
  rw [h1, natReprAuxF_fuel_irrel m ((m + 1) / 10) ((m + 1) / 10) (by omega) (le_refl _)]

theorem natReprAux_nil (n : Nat) : natReprAux n = [] → n = 0 := by
  cases n with
  | zero => intro _; rfl
  | succ m =>
      intro h
      rw [natReprAux_succ] at h
      simp at h

theorem digitChar_inj :
    ∀ a : Nat, a < 10 → ∀ b : Nat, b < 10 → digitChar a = digitChar b → a = b := by
  decide

theorem natReprAux_inj : ∀ m n : Nat, natReprAux m = natReprAux n → m = n := by
  intro m
  induction m using Nat.strong_induction_on with
  | _ m ih =>
      intro n h
      cases m with
      | zero =>
          cases n with
          | zero => rfl
          | succ k =>
              exfalso
              have h0 : natReprAux 0 = [] := rfl
              rw [h0] at h
              exact Nat.succ_ne_zero k (natReprAux_nil (k + 1) h.symm)
      | succ mk =>
          cases n with
          | zero =>
              exfalso
              have h0 : natReprAux 0 = [] := rfl
              rw [h0] at h
              exact Nat.succ_ne_zero mk (natReprAux_nil (mk + 1) h)
          | succ nk =>
              rw [natReprAux_succ mk, natReprAux_succ nk] at h
              rw [← List.concat_eq_append, ← List.concat_eq_append] at h
              obtain ⟨hA, hc⟩ := List.concat_inj.mp h
              have hm10 : (mk + 1) % 10 < 10 := Nat.mod_lt _ (by norm_num)
              have hn10 : (nk + 1) % 10 < 10 := Nat.mod_lt _ (by norm_num)
              have hd := digitChar_inj _ hm10 _ hn10 hc
              have hdiv : (mk + 1) / 10 < mk + 1 := Nat.div_lt_self (Nat.succ_pos mk) (by norm_num)
              have hq := ih ((mk + 1) / 10) hdiv ((nk + 1) / 10) hA
              omega

theorem digitChar_eq_zeroChar : ∀ d : Nat, d < 10 → digitChar d = '0' → d = 0 := by
  decide

theorem natRepr_inj : ∀ m n : Nat, natRepr m = natRepr n → m = n := by
  have key : ∀ k : Nat, natRepr 0 = natRepr (k + 1) → False := by
    intro k h
    simp only [natRepr, if_pos rfl, Nat.succ_ne_zero, if_neg (Nat.succ_ne_zero k)] at h
    have hdata : ['0'] = natReprAux (k + 1) := by
      have := congrArg String.data h
      simpa using this
    rw [natReprAux_succ] at hdata
    have hlen := congrArg List.length hdata
    simp [List.length_append] at hlen
    have hnil : natReprAux ((k + 1) / 10) = [] := by
      cases hx : natReprAux ((k + 1) / 10) with
      | nil => rfl
      | cons y ys => rw [hx] at hlen; simp at hlen
    rw [hnil] at hdata
    simp at hdata
    have hq : (k + 1) / 10 = 0 := natReprAux_nil _ hnil
    have hr : (k + 1) % 10 = 0 :=
      digitChar_eq_zeroChar _ (Nat.mod_lt _ (by norm_num)) hdata.symm
    omega
  intro m n h
  cases m with
  | zero =>
      cases n with
      | zero => rfl
      | succ k => exact absurd h (fun hc => key k hc)
  | succ mk =>
      cases n with
      | zero => exact absurd h.symm (fun hc => key mk hc)
      | succ nk =>
          simp only [natRepr, if_neg (Nat.succ_ne_zero mk), if_neg (Nat.succ_ne_zero nk)] at h
          have hdata := congrArg String.data h
          simp at hdata
          exact natReprAux_inj _ _ hdata

/-- Modelled from the spec: the `" (n)"` suffix scheme of the KeepBoth
conflict decision — the disambiguated name for candidate `c` and counter
`n`. -/
def renderedName (c : String) (n : Nat) : String :=
  c ++ " (" ++ natRepr n ++ ")"

theorem renderedName_inj (c : String) :
    ∀ m n : Nat, renderedName c m = renderedName c n → m = n := by
  intro m n h
  have hdata := congrArg String.data h
  simp only [renderedName, String.data_append, List.append_assoc] at hdata
  have h1 := List.append_cancel_left hdata
  have h2 := List.append_cancel_left h1
  rw [← List.concat_eq_append, ← List.concat_eq_append] at h2
  obtain ⟨h3, -⟩ := List.concat_inj.mp h2
  apply natRepr_inj
  cases hm : natRepr m with
  | mk dm =>
      cases hn : natRepr n with
      | mk dn =>
          rw [hm, hn] at h3
          simp at h3
          rw [h3]

/-- Modelled from the spec: search for the first free counter starting at
`start`, incrementing while the rendered name is taken; fueled so that the
search is structural. -/
def findFree (occupied : List String) (c : String) : Nat → Nat → Nat
  | 0, n => n
  | fuel + 1, n =>
      if containsQ occupied (renderedName c n) then findFree occupied c fuel (n + 1) else n

/-- Modelled from the spec: the KeepBoth counter for a colliding candidate —
the first `n ≥ 2` whose `" (n)"`-suffixed name is free in the destination
snapshot.  `occupied.length + 1` counters suffice by pigeonhole. -/
def keepBothFree (occupied : List String) (c : String) : Nat :=
  findFree occupied c (occupied.length + 1) 2

/-- Modelled from the spec: resolve one candidate name against the snapshot
of occupied names — keep it if free, otherwise generate the `" (n)"`
disambiguated name. -/
def resolveCollision (occupied : List String) (c : String) : String :=
  if containsQ occupied c then renderedName c (keepBothFree occupied c) else c

/-- Modelled from the spec: resolve a batch of candidate names, tracking the
generated names in memory so that later candidates also avoid them. -/
def resolveBatch (occupied : List String) : List String → List String
  | [] => []
  | c :: cs =>
      let name := resolveCollision occupied c
      name :: resolveBatch (name :: occupied) cs

theorem findFree_spec (occupied : List String) (c : String) :
    ∀ fuel n : Nat, (∃ k, k < fuel ∧ containsQ occupied (renderedName c (n + k)) = false) →
      n ≤ findFree occupied c fuel n ∧
      containsQ occupied (renderedName c (findFree occupied c fuel n)) = false ∧
      ∀ m, n ≤ m → m < findFree occupied c fuel n →
        containsQ occupied (renderedName c m) = true := by
  intro fuel
  induction fuel with
  | zero =>
      intro n ⟨k, hk, _⟩
      omega
  | succ f ih =>
      intro n ⟨k, hk, hfree⟩
      by_cases hc : containsQ occupied (renderedName c n) = true
      · have hstep : findFree occupied c (f + 1) n = findFree occupied c f (n + 1) := by
          rw [findFree, hc]
          simp
        have hk0 : k ≠ 0 := by
          intro h0
          rw [h0, Nat.add_zero] at hfree
          rw [hc] at hfree
          exact Bool.false_ne_true hfree.symm
        have hex : ∃ k2, k2 < f ∧ containsQ occupied (renderedName c (n + 1 + k2)) = false := by
          refine ⟨k - 1, by omega, ?_⟩
          have heq : n + 1 + (k - 1) = n + k := by omega
          rw [heq]
          exact hfree
        obtain ⟨hle, hfr, hmin⟩ := ih (n + 1) hex
        rw [hstep]
        refine ⟨by omega, hfr, ?_⟩
        intro m hm1 hm2
        by_cases hmn : m = n
        · rw [hmn]; exact hc
        · exact hmin m (by omega) hm2
      · have hc' : containsQ occupied (renderedName c n) = false := by
          cases h : containsQ occupied (renderedName c n)
          · rfl
          · exact absurd h hc
        have hstep : findFree occupied c (f + 1) n = n := by
          rw [findFree, hc']
          simp
        rw [hstep]
        exact ⟨le_refl n, hc', fun m hm1 hm2 => absurd hm2 (by omega)⟩

theorem exists_free_counter (occupied : List String) (c : String) :
    ∃ k, k < occupied.length + 1 ∧ containsQ occupied (renderedName c (2 + k)) = false := by
  by_contra hcon
  push_neg at hcon
  have hall : ∀ k, k < occupied.length + 1 → renderedName c (2 + k) ∈ occupied := by
    intro k hk
    have := hcon k hk
    have h2 : containsQ occupied (renderedName c (2 + k)) = true := by
      cases h : containsQ occupied (renderedName c (2 + k))
      · exact absurd h this
      · rfl
    exact (containsQ_iff _ _).mp h2
  have hsub : (Finset.range (occupied.length + 1)).image (fun k => renderedName c (2 + k))
      ⊆ occupied.toFinset := by
    intro x hx
    obtain ⟨k, hk, rfl⟩ := Finset.mem_image.mp hx
    rw [List.mem_toFinset]
    exact hall k (Finset.mem_range.mp hk)
  have hinj : Set.InjOn (fun k => renderedName c (2 + k))
      ((Finset.range (occupied.length + 1)) : Finset Nat) := by
    intro a _ b _ hab
    have := renderedName_inj c (2 + a) (2 + b) hab
    omega
  have hcard1 : ((Finset.range (occupied.length + 1)).image
      (fun k => renderedName c (2 + k))).card = occupied.length + 1 := by
    rw [Finset.card_image_of_injOn hinj, Finset.card_range]
  have hcard2 := Finset.card_le_card hsub
  rw [hcard1] at hcard2
  have hcard3 := occupied.toFinset_card_le
  omega

theorem keepBothFree_spec (occupied : List String) (c : String) :
    2 ≤ keepBothFree occupied c ∧
    containsQ occupied (renderedName c (keepBothFree occupied c)) = false ∧
    ∀ m, 2 ≤ m → m < keepBothFree occupied c →
      containsQ occupied (renderedName c m) = true := by
  obtain ⟨k, hk, hfree⟩ := exists_free_counter occupied c
  exact findFree_spec occupied c (occupied.length + 1) 2 ⟨k, hk, hfree⟩

theorem resolveCollision_not_mem (occupied : List String) (c : String) :
    resolveCollision occupied c ∉ occupied := by
  by_cases h : containsQ occupied c = true
  · simp only [resolveCollision, h, if_true]
    exact (containsQ_false_iff _ _).mp (keepBothFree_spec occupied c).2.1
  · have h' : containsQ occupied c = false := by
      cases hx : containsQ occupied c
      · rfl
      · exact absurd hx h
    simp only [resolveCollision, h', Bool.false_eq_true, if_false]
    exact (containsQ_false_iff _ _).mp h'

theorem resolveBatch_not_mem :
    ∀ (cs occupied : List String) (x : String),
      x ∈ resolveBatch occupied cs → x ∉ occupied := by
  intro cs
  induction cs with
  | nil =>
      intro occupied x hx
      simp [resolveBatch] at hx
  | cons c t ih =>
      intro occupied x hx
      simp only [resolveBatch, List.mem_cons] at hx
      rcases hx with rfl | hx
      · exact resolveCollision_not_mem occupied c
      · intro hmem
        exact ih (resolveCollision occupied c :: occupied) x hx (by simp [hmem])

theorem resolveBatch_nodup :
    ∀ (cs occupied : List String), (resolveBatch occupied cs).Nodup := by
  intro cs
  induction cs with
  | nil => intro occupied; simp [resolveBatch]
  | cons c t ih =>
      intro occupied
      simp only [resolveBatch]
      refine List.Nodup.cons ?_ (ih _)
      intro hmem
      exact resolveBatch_not_mem t (resolveCollision occupied c :: occupied)
        (resolveCollision occupied c) hmem (by simp)

theorem resolveBatch_length :
    ∀ (cs occupied : List String), (resolveBatch occupied cs).length = cs.length := by
  intro cs
  induction cs with
  | nil => intro occupied; rfl
  | cons c t ih => intro occupied; simp [resolveBatch, ih]

/-- C4: KeepBoth name generation via the `" (n)"` suffix scheme is
deterministic and idempotent — the resolver is a pure function of the
directory snapshot, and resolving an already-resolved name against the same
snapshot returns it unchanged; a colliding candidate receives the suffixed
name with the first free `n ≥ 2` (every smaller `n ≥ 2` is taken); and
resolving a batch of N candidates yields N distinct names, none equal to any
pre-existing entry of the snapshot. -/
theorem keepBoth_name_generation :
    (∀ (occupied : List String) (c : String),
        resolveCollision occupied (resolveCollision occupied c) = resolveCollision occupied c) ∧
    (∀ (occupied : List String) (c : String),
        containsQ occupied (resolveCollision occupied c) = false) ∧
    (∀ (occupied : List String) (c : String), c ∈ occupied →
        resolveCollision occupied c = renderedName c (keepBothFree occupied c) ∧
        2 ≤ keepBothFree occupied c ∧
        containsQ occupied (renderedName c (keepBothFree occupied c)) = false ∧
        ∀ m, 2 ≤ m → m < keepBothFree occupied c → renderedName c m ∈ occupied) ∧
    (∀ (occupied cs : List String),
        (resolveBatch occupied cs).length = cs.length ∧
        (resolveBatch occupied cs).Nodup ∧
        (resolveBatch occupied cs).all (fun x => !(containsQ occupied x)) = true) := by
  refine ⟨?_, ?_, ?_, ?_⟩
  · intro occupied c
    have hnm := resolveCollision_not_mem occupied c
    have hq : containsQ occupied (resolveCollision occupied c) = false :=
      (containsQ_false_iff _ _).mpr hnm
    conv_lhs => rw [resolveCollision]
    rw [hq]
    simp
  · intro occupied c
    exact (containsQ_false_iff _ _).mpr (resolveCollision_not_mem occupied c)
  · intro occupied c hc
    obtain ⟨h2, hf, hmin⟩ := keepBothFree_spec occupied c
    refine ⟨?_, h2, hf, ?_⟩
    · have hq : containsQ occupied c = true := (containsQ_iff _ _).mpr hc
      simp [resolveCollision, hq]
    · intro m hm1 hm2
      exact (containsQ_iff _ _).mp (hmin m hm1 hm2)
  · intro occupied cs
    refine ⟨resolveBatch_length cs occupied, resolveBatch_nodup cs occupied, ?_⟩
    rw [List.all_eq_true]
    intro x hx
    have := resolveBatch_not_mem cs occupied x hx
    simp [containsQ_false_iff _ x |>.mpr this]

/-- Witness for C4 at a concrete snapshot: the snapshot `["a"]` with
candidate `"a"` resolves to the suffixed name with counter 2. -/
theorem keepBoth_name_generation_witness :
    resolveCollision ["a"] "a" = renderedName "a" (keepBothFree ["a"] "a") ∧
    2 ≤ keepBothFree ["a"] "a" :=
  ⟨(keepBoth_name_generation.2.2.1 ["a"] "a" (by decide)).1,
   (keepBoth_name_generation.2.2.1 ["a"] "a" (by decide)).2.1⟩

/-! ### Menu construction (`src/menu.rs`)

The embeddings below mirror `context_menu1`, `context_menu2` and `menu_bar`
from `src/menu.rs`.  Widget plumbing (labels' key bindings, dividers' styling,
containers) carries no action information; a context menu is embedded as the
ordered list of `Action` values its items dispatch, and the menu bar as the
ordered list of its items with their enabled state.  Conditional pushes in the
source become `optA` chunks. -/

/-- `tab1::HeadingOptions` / `tab2::HeadingOptions` as used by `menu.rs`. -/
inductive HeadingOptions where
  | name
  | modified
  | size
  | trashedOn
  deriving DecidableEq, Repr

/-- `app::Action` variants referenced by `src/menu.rs`.  The `app` module is
not under `src/`; the constructor list is taken from the `menu.rs` call sites,
plus `deletePermanent`, modelled from the spec's `Delete(Permanent)` operation
kind, which no menu ever dispatches. -/
inductive Action where
  | about
  | addToSidebar
  | compress
  | copy
  | copyTab
  | cosmicSettingsAppearance
  | cosmicSettingsDisplays
  | cosmicSettingsWallpaper
  | cut
  | deletePermanent
  | desktopViewOptions
  | editHistory
  | emptyTrash
  | execEntryAction (i : Nat)
  | extractHere
  | f2Rename
  | f5Copy
  | f6Move
  | gallery
  | moveTab
  | moveToTrash
  | newFile
  | newFolder
  | openItem
  | openInNewTab
  | openInNewWindow
  | openItemLocation
  | openTerminal
  | openWith
  | paste
  | preview
  | rename
  | restoreFromTrash
  | selectAll
  | setSort (v : HeadingOptions) (dir : Bool)
  | settings
  | tabClose
  | tabNew
  | tabViewGrid
  | tabViewList
  | toggleFoldersFirst
  | toggleShowHidden
  | toggleSortLeft (v : HeadingOptions)
  | toggleSortRight (v : HeadingOptions)
  | windowClose
  | windowNew
  | zoomDefault
  | zoomIn
  | zoomOut
  deriving DecidableEq, Repr

/-- An item's `location_opt` as inspected by the selection scan in
`context_menu1`/`context_menu2`: the Trash, a filesystem path (recording
whether its extension is `desktop`), or some other location. -/
inductive ItemLoc where
  | trash
  | path (extDesktop : Bool)
  | other
  deriving DecidableEq, Repr

/-- A tab item as inspected by `menu.rs`: its selection state, whether its
metadata is a directory, its `location_opt`, its mime type (as a string;
every mime literal in `menu.rs` parses successfully), the result of
`load_desktop_file` for it (`some k` = a desktop entry with `k` desktop
actions, `none` = load failure; the loader is an external collaborator), and
`can_gallery()`. -/
structure Item where
  selected : Bool
  isDir : Bool
  loc : Option ItemLoc
  mime : String
  desktopActions : Option Nat
  canGallery : Bool
  deriving DecidableEq, Repr

/-- `tab1::Mode` / `tab2::Mode` as matched by `menu.rs`: `App`, `Desktop`, or
`Dialog(dialog_kind)` where only `dialog_kind.save()` is inspected. -/
inductive Mode where
  | app
  | desktop
  | dialog (save : Bool)
  deriving DecidableEq, Repr

/-- `tab1::Location` / `tab2::Location` as matched by `menu.rs`; the payloads
of `Desktop`, `Path` and `Search` are not inspected by the menu code. -/
inductive Location where
  | desktop
  | path
  | search
  | recents
  | trash
  | network
  deriving DecidableEq, Repr

/-- `tab1::View` / `tab2::View`. -/
inductive View where
  | grid
  | list
  deriving DecidableEq, Repr

/-- The tab state inspected by `menu.rs`: mode, location, optional item list,
`mode.multiple()` (the `tab1`/`tab2` modules defining `multiple` are not under
`src/`, so its value is carried as a field), the `sort_options()` pair, and
the view configuration read by `menu_bar`. -/
structure Tab where
  mode : Mode
  location : Location
  itemsOpt : Option (List Item)
  multiple : Bool
  sortName : HeadingOptions
  sortDirection : Bool
  view : View
  showHidden : Bool
  foldersFirst : Bool
  deriving DecidableEq, Repr

/-- The cargo build features referenced by `menu.rs`: `bzip2`, `liblzma` and
`desktop`. -/
structure Features where
  bzip2 : Bool
  liblzma : Bool
  desktop : Bool
  deriving DecidableEq, Repr

/-- The accumulator of the selection scan loop shared verbatim by
`context_menu1` and `context_menu2`. -/
structure Scan where
  selectedDir : Nat
  selected : Nat
  trashOnly : Bool
  desktopEntry : Option Item
  types : List String
  deriving Repr

def scanInit : Scan := ⟨0, 0, false, none, []⟩

/-- The trash flag update of one loop iteration: seeing a selected item whose
location is the Trash sets the flag. -/
def stepTrashOnly (acc : Bool) (item : Item) : Bool :=
  match item.loc with
  | some .trash => true
  | _ => acc

/-- The desktop-entry capture of one loop iteration: the first selected item
(`selected == 1` after the increment) whose path extension is `desktop` is
remembered. -/
def stepDesktopEntry (acc : Option Item) (selected : Nat) (item : Item) : Option Item :=
  match item.loc with
  | some (.path extDesktop) =>
      if selected == 1 && extDesktop then some item else acc
  | _ => acc

/-- One iteration of the selection scan loop of
`context_menu1`/`context_menu2` (`src/menu.rs` lines 88–114 and 411–437). -/
def scanStep (acc : Scan) (item : Item) : Scan :=
  if item.selected then
    let selected := acc.selected + 1
    ⟨if item.isDir then acc.selectedDir + 1 else acc.selectedDir,
     selected,
     stepTrashOnly acc.trashOnly item,
     stepDesktopEntry acc.desktopEntry selected item,
     acc.types ++ [item.mime]⟩
  else acc

def scanItems (items : List Item) : Scan :=
  items.foldl scanStep scanInit

/-- `tab.items_opt()` with the `if let Some(items)` guard: no items means the
loop body never runs. -/
def tabItems (tab : Tab) : List Item :=
  tab.itemsOpt.getD []

def scanTab (tab : Tab) : Scan :=
  scanItems (tabItems tab)

/-- `selected_trash_only = selected_trash_only && selected == 1` after the
loop. -/
def selectedTrashOnly (sc : Scan) : Bool :=
  sc.trashOnly && sc.selected == 1

/-- The desktop-entry value tested by `else if let Some(entry)`: with the
`desktop` feature the captured path is parsed only when exactly one item is
selected (`some k` = entry with `k` desktop actions); without the feature the
captured path is used as-is and the desktop-action loop is compiled out. -/
def desktopEntryOpt (f : Features) (sc : Scan) : Option Nat :=
  if f.desktop then
    sc.desktopEntry.bind (fun it => if sc.selected == 1 then it.desktopActions else none)
  else
    sc.desktopEntry.map (fun _ => 0)

/-- Rust's `Vec::dedup`: remove consecutive duplicates. -/
def dedupConsec : List String → List String
  | [] => []
  | [a] => [a]
  | a :: b :: rest =>
      if a = b then dedupConsec (b :: rest) else a :: dedupConsec (b :: rest)

/-- `selected_types.sort_unstable(); selected_types.dedup();`. -/
def processedTypes (sc : Scan) : List String :=
  dedupConsec (List.insertionSort (· ≤ ·) sc.types)

/-- The `supported_archive_types` array of `context_menu1`/`context_menu2`
(`src/menu.rs` lines 184–200 and 507–523), with the `bzip2` and `liblzma`
entries present according to the build features. -/
def supportedArchiveTypes (bz xz : Bool) : List String :=
  ["application/gzip", "application/x-compressed-tar", "application/x-tar",
    "application/zip"]
    ++ (if bz then ["application/x-bzip", "application/x-bzip-compressed-tar"] else [])
    ++ (if xz then ["application/x-xz", "application/x-xz-compressed-tar"] else [])

/-- `selected_types.retain(|t| !supported_archive_types.contains(t))`: the
selected mime types that are not supported archive types. -/
def retainedTypes (f : Features) (sc : Scan) : List String :=
  (processedTypes sc).filter
    (fun t => !(containsQ (supportedArchiveTypes f.bzip2 f.liblzma) t))

/-- A conditionally pushed menu action: the source's
`if cond { children.push(menu_item(.., action)) }`. -/
def optA (c : Prop) [Decidable c] (a : Action) : List Action :=
  if c then [a] else []

/-- The `selected_trash_only` branch of `context_menu1` (lines 137–141);
identical in `context_menu2` (lines 460–464). -/
def ctxTrashOnlyBranch (trashEntries : Nat) : List Action :=
  [.openItem] ++ optA (0 < trashEntries) .emptyTrash

/-- The desktop-entry branch of `context_menu1` (lines 142–155); identical in
`context_menu2` (lines 465–478). -/
def ctxDesktopEntryBranch (nActs : Nat) : List Action :=
  [.openItem] ++ (List.range nActs).map Action.execEntryAction
    ++ [.rename, .cut, .copy, .moveToTrash]

/-- The `selected > 0` branch of `context_menu1` (lines 156–232). -/
def ctx1Selected (f : Features) (tab : Tab) (sc : Scan) : List Action :=
  optA (sc.selectedDir = 1 ∧ sc.selected = 1 ∨ sc.selectedDir = 0) .openItem
    ++ optA (sc.selected = 1) .openWith
    ++ optA (sc.selected = 1 ∧ sc.selectedDir = 1) .openTerminal
    ++ optA (tab.location = .search ∨ tab.location = .recents) .openItemLocation
    ++ optA (sc.selected = sc.selectedDir ∧ tab.mode = .app) .openInNewTab
    ++ optA (sc.selected = sc.selectedDir ∧ tab.mode = .app) .openInNewWindow
    ++ [.rename, .cut, .copy]
    ++ optA (retainedTypes f sc = []) .extractHere
    ++ [.compress, .preview]
    ++ optA (tab.mode = .app) .addToSidebar
    ++ [.moveToTrash]
    ++ [.tabNew, .copyTab, .moveTab]
    ++ [.zoomIn, .zoomDefault, .zoomOut]
    ++ [.tabViewGrid, .tabViewList]
    ++ [.toggleSortLeft .name, .toggleSortLeft .modified, .toggleSortLeft .size]

/-- The empty-selection branch of `context_menu1` (lines 233–283). -/
def ctx1Empty (tab : Tab) : List Action :=
  [.newFolder, .newFile, .openTerminal]
    ++ optA (tab.multiple = true) .selectAll
    ++ [.paste]
    ++ optA (tab.mode = .desktop) .cosmicSettingsWallpaper
    ++ optA (tab.mode = .desktop) .cosmicSettingsAppearance
    ++ optA (tab.mode = .desktop) .cosmicSettingsDisplays
    ++ [.zoomIn, .zoomDefault, .zoomOut]
    ++ [.tabViewGrid, .tabViewList]
    ++ [.tabNew, .copyTab, .moveTab]
    ++ [.toggleSortLeft .name, .toggleSortLeft .modified, .toggleSortLeft .size]
    ++ optA (tab.location = .desktop) .desktopViewOptions

/-- The `Mode::Dialog` arm of `context_menu1` (lines 285–314). -/
def ctx1Dialog (save : Bool) (tab : Tab) (sc : Scan) : List Action :=
  if 0 < sc.selected then
    optA (sc.selectedDir = 1 ∧ sc.selected = 1 ∨ sc.selectedDir = 0) .openItem
      ++ optA (tab.location = .search ∨ tab.location = .recents) .openItemLocation
      ++ [.preview]
  else
    optA (save = true) .newFolder
      ++ optA (tab.multiple = true) .selectAll
      ++ [.toggleSortLeft .name, .toggleSortLeft .modified, .toggleSortLeft .size]

/-- The `Location::Network` arm of `context_menu1` (lines 315–331). -/
def ctx1Network (tab : Tab) (sc : Scan) : List Action :=
  if 0 < sc.selected then
    optA (sc.selectedDir = 1 ∧ sc.selected = 1 ∨ sc.selectedDir = 0) .openItem
  else
    optA (tab.multiple = true) .selectAll
      ++ [.toggleSortLeft .name, .toggleSortLeft .modified, .toggleSortLeft .size]

/-- The `Location::Trash` arm of `context_menu1` (lines 332–350). -/
def ctx1Trash (tab : Tab) (sc : Scan) : List Action :=
  optA (tab.multiple = true) .selectAll
    ++ (if 0 < sc.selected then
          [.preview, .restoreFromTrash]
        else
          [.toggleSortLeft .name, .toggleSortLeft .trashedOn, .toggleSortLeft .size])

/-- The first match arm of `context_menu1`
(`(App | Desktop, Desktop | Path | Search | Recents)`, lines 132–284):
trash-only selection, then desktop-entry selection, then non-empty selection,
then empty selection. -/
def ctx1Main (f : Features) (trashEntries : Nat) (tab : Tab) (sc : Scan) : List Action :=
  if selectedTrashOnly sc then
    ctxTrashOnlyBranch trashEntries
  else
    match desktopEntryOpt f sc with
    | some nActs => ctxDesktopEntryBranch nActs
    | none => if 0 < sc.selected then ctx1Selected f tab sc else ctx1Empty tab

/-- The ordered list of actions dispatched by the items of `context_menu1`
(`src/menu.rs` lines 52–373).  The Rust `match (&tab.mode, &tab.location)`
has four mutually exclusive arms; they are selected here by location first,
which picks the same arm for every `(mode, location)` pair. -/
def ctxActions1 (f : Features) (trashEntries : Nat) (tab : Tab) : List Action :=
  let sc := scanTab tab
  match tab.location with
  | .network => ctx1Network tab sc
  | .trash => ctx1Trash tab sc
  | _ =>
      match tab.mode with
      | .dialog save => ctx1Dialog save tab sc
      | _ => ctx1Main f trashEntries tab sc

/-- The `selected > 0` branch of `context_menu2` (lines 479–555): same chunks
as `context_menu1` but dispatching `ToggleSortRight` and pushing the
tab-related items after the sort items. -/
def ctx2Selected (f : Features) (tab : Tab) (sc : Scan) : List Action :=
  optA (sc.selectedDir = 1 ∧ sc.selected = 1 ∨ sc.selectedDir = 0) .openItem
    ++ optA (sc.selected = 1) .openWith
    ++ optA (sc.selected = 1 ∧ sc.selectedDir = 1) .openTerminal
    ++ optA (tab.location = .search ∨ tab.location = .recents) .openItemLocation
    ++ optA (sc.selected = sc.selectedDir ∧ tab.mode = .app) .openInNewTab
    ++ optA (sc.selected = sc.selectedDir ∧ tab.mode = .app) .openInNewWindow
    ++ [.rename, .cut, .copy]
    ++ optA (retainedTypes f sc = []) .extractHere
    ++ [.compress, .preview]
    ++ optA (tab.mode = .app) .addToSidebar
    ++ [.moveToTrash]
    ++ [.zoomIn, .zoomDefault, .zoomOut]
    ++ [.tabViewGrid, .tabViewList]
    ++ [.toggleSortRight .name, .toggleSortRight .modified, .toggleSortRight .size]
    ++ [.tabNew, .copyTab, .moveTab]

/-- The empty-selection branch of `context_menu2` (lines 556–605): same
chunks as `context_menu1` but dispatching `ToggleSortRight` and pushing the
tab-related items before the zoom items. -/
def ctx2Empty (tab : Tab) : List Action :=
  [.newFolder, .newFile, .openTerminal]
    ++ optA (tab.multiple = true) .selectAll
    ++ [.paste]
    ++ optA (tab.mode = .desktop) .cosmicSettingsWallpaper
    ++ optA (tab.mode = .desktop) .cosmicSettingsAppearance
    ++ optA (tab.mode = .desktop) .cosmicSettingsDisplays
    ++ [.tabNew, .copyTab, .moveTab]
    ++ [.zoomIn, .zoomDefault, .zoomOut]
    ++ [.tabViewGrid, .tabViewList]
    ++ [.toggleSortRight .name, .toggleSortRight .modified, .toggleSortRight .size]
    ++ optA (tab.location = .desktop) .desktopViewOptions

/-- The `Mode::Dialog` arm of `context_menu2` (lines 607–636). -/
def ctx2Dialog (save : Bool) (tab : Tab) (sc : Scan) : List Action :=
  if 0 < sc.selected then
    optA (sc.selectedDir = 1 ∧ sc.selected = 1 ∨ sc.selectedDir = 0) .openItem
      ++ optA (tab.location = .search ∨ tab.location = .recents) .openItemLocation
      ++ [.preview]
  else
    optA (save = true) .newFolder
      ++ optA (tab.multiple = true) .selectAll
      ++ [.toggleSortRight .name, .toggleSortRight .modified, .toggleSortRight .size]

/-- The `Location::Network` arm of `context_menu2` (lines 637–653). -/
def ctx2Network (tab : Tab) (sc : Scan) : List Action :=
  if 0 < sc.selected then
    optA (sc.selectedDir = 1 ∧ sc.selected = 1 ∨ sc.selectedDir = 0) .openItem
  else
    optA (tab.multiple = true) .selectAll
      ++ [.toggleSortRight .name, .toggleSortRight .modified, .toggleSortRight .size]

/-- The `Location::Trash` arm of `context_menu2` (lines 654–672). -/
def ctx2Trash (tab : Tab) (sc : Scan) : List Action :=
  optA (tab.multiple = true) .selectAll
    ++ (if 0 < sc.selected then
          [.preview, .restoreFromTrash]
        else
          [.toggleSortRight .name, .toggleSortRight .trashedOn, .toggleSortRight .size])

/-- The first match arm of `context_menu2` (lines 455–606). -/
def ctx2Main (f : Features) (trashEntries : Nat) (tab : Tab) (sc : Scan) : List Action :=
  if selectedTrashOnly sc then
    ctxTrashOnlyBranch trashEntries
  else
    match desktopEntryOpt f sc with
    | some nActs => ctxDesktopEntryBranch nActs
    | none => if 0 < sc.selected then ctx2Selected f tab sc else ctx2Empty tab

/-- The ordered list of actions dispatched by the items of `context_menu2`
(`src/menu.rs` lines 375–695). -/
def ctxActions2 (f : Features) (trashEntries : Nat) (tab : Tab) : List Action :=
  let sc := scanTab tab
  match tab.location with
  | .network => ctx2Network tab sc
  | .trash => ctx2Trash tab sc
  | _ =>
      match tab.mode with
      | .dialog save => ctx2Dialog save tab sc
      | _ => ctx2Main f trashEntries tab sc

/-- A menu-bar item as built by `menu_bar` via `menu::Item`: an enabled
button, a disabled button (`menu_button_optional` with `enabled == false`),
a checkbox, or a divider.  Labels are the `fl!` localization keys. -/
inductive MenuItem where
  | button (label : String) (a : Action)
  | buttonDisabled (label : String) (a : Action)
  | checkBox (label : String) (checked : Bool) (a : Action)
  | divider
  deriving DecidableEq, Repr

/-- `menu_button_optional` from `src/menu.rs` (lines 40–50). -/
def menuButtonOptional (label : String) (a : Action) (enabled : Bool) : MenuItem :=
  if enabled then .button label a else .buttonDisabled label a

/-- The selection counters computed by the loop at the start of `menu_bar`
(`src/menu.rs` lines 911–926). -/
structure MbScan where
  selected : Nat
  selectedDir : Nat
  selectedGallery : Nat
  deriving DecidableEq, Repr

def mbScan (tabOpt : Option Tab) : MbScan :=
  ((tabOpt.bind Tab.itemsOpt).getD []).foldl
    (fun acc item =>
      if item.selected then
        ⟨acc.selected + 1,
         if item.isDir then acc.selectedDir + 1 else acc.selectedDir,
         if item.canGallery then acc.selectedGallery + 1 else acc.selectedGallery⟩
      else acc)
    ⟨0, 0, 0⟩

/-- `tab_opt.map_or(false, f)`. -/
def tabFlag (tabOpt : Option Tab) (f : Tab → Bool) : Bool :=
  (tabOpt.map f).getD false

/-- The sort checkbox state of `menu_bar`'s `sort_item`
(`sort_options.map_or(false, ...)`). -/
def sortChecked (tabOpt : Option Tab) (v : HeadingOptions) (dir : Bool) : Bool :=
  tabFlag tabOpt (fun tab => tab.sortName == v && tab.sortDirection == dir)

/-- The File menu of `menu_bar` (`src/menu.rs` lines 929–960). -/
def fileMenu (selected selectedDir : Nat) : List MenuItem :=
  [ .button "new-tab" .tabNew,
    .button "copy-tab" .tabNew,
    .button "move-tab" .tabNew,
    .divider,
    .button "new-window" .windowNew,
    .button "new-folder" .newFolder,
    .button "new-file" .newFile,
    menuButtonOptional "open" .openItem
      (decide ((0 < selected ∧ selectedDir = 0) ∨ (selectedDir = 1 ∧ selected = 1))),
    menuButtonOptional "menu-open-with" .openWith (decide (selected = 1)),
    .divider,
    menuButtonOptional "rename" .f2Rename (decide (0 < selected)),
    menuButtonOptional "f5-copy" .f5Copy (decide (0 < selected)),
    menuButtonOptional "f6-move" .f6Move (decide (0 < selected)),
    .divider,
    menuButtonOptional "add-to-sidebar" .addToSidebar (decide (0 < selected)),
    .divider,
    menuButtonOptional "move-to-trash" .moveToTrash (decide (0 < selected)),
    .divider,
    .button "close-tab" .tabClose,
    .button "quit" .windowClose ]

/-- The Edit menu of `menu_bar` (lines 961–974). -/
def editMenu (selected : Nat) : List MenuItem :=
  [ menuButtonOptional "cut" .cut (decide (0 < selected)),
    menuButtonOptional "copy" .copy (decide (0 < selected)),
    menuButtonOptional "paste" .paste (decide (0 < selected)),
    .button "select-all" .selectAll,
    .divider,
    .button "history" .editHistory ]

/-- The View menu of `menu_bar` (lines 975–1027). -/
def viewMenu (tabOpt : Option Tab) (showDetails : Bool) (selectedGallery : Nat) :
    List MenuItem :=
  [ .button "zoom-in" .zoomIn,
    .button "default-size" .zoomDefault,
    .button "zoom-out" .zoomOut,
    .divider,
    .checkBox "grid-view" (tabFlag tabOpt (fun tab => tab.view == View.grid)) .tabViewGrid,
    .checkBox "list-view" (tabFlag tabOpt (fun tab => tab.view == View.list)) .tabViewList,
    .divider,
    .checkBox "show-hidden-files" (tabFlag tabOpt Tab.showHidden) .toggleShowHidden,
    .checkBox "list-directories-first" (tabFlag tabOpt Tab.foldersFirst) .toggleFoldersFirst,
    .checkBox "show-details" showDetails .preview,
    .divider,
    menuButtonOptional "gallery-preview" .gallery (decide (0 < selectedGallery)),
    .divider,
    .button "menu-settings" .settings,
    .divider,
    .button "menu-about" .about ]

/-- The Sort menu of `menu_bar` (lines 1028–1066). -/
def sortMenu (tabOpt : Option Tab) : List MenuItem :=
  let inTrash := tabFlag tabOpt (fun tab => tab.location == Location.trash)
  [ .checkBox "sort-a-z" (sortChecked tabOpt .name true) (.setSort .name true),
    .checkBox "sort-z-a" (sortChecked tabOpt .name false) (.setSort .name false),
    .checkBox "sort-newest-first"
      (sortChecked tabOpt (if inTrash then .trashedOn else .modified) false)
      (.setSort (if inTrash then .trashedOn else .modified) false),
    .checkBox "sort-oldest-first"
      (sortChecked tabOpt (if inTrash then .trashedOn else .modified) true)
      (.setSort (if inTrash then .trashedOn else .modified) true),
    .checkBox "sort-smallest-to-largest" (sortChecked tabOpt .size true) (.setSort .size true),
    .checkBox "sort-largest-to-smallest" (sortChecked tabOpt .size false)
      (.setSort .size false) ]

/-- All items of the four `menu_bar` menus (`src/menu.rs` lines 893–1072), in
order. -/
def menuBarItems (tabOpt : Option Tab) (showDetails : Bool) : List MenuItem :=
  let sc := mbScan tabOpt
  fileMenu sc.selected sc.selectedDir ++ editMenu sc.selected
    ++ viewMenu tabOpt showDetails sc.selectedGallery ++ sortMenu tabOpt

/-- The actions a user can actually trigger from a list of menu items:
enabled buttons and checkboxes dispatch their action; disabled buttons and
dividers dispatch nothing. -/
def offeredActions : List MenuItem → List Action
  | [] => []
  | .button _ a :: rest => a :: offeredActions rest
  | .buttonDisabled _ _ :: rest => offeredActions rest
  | .checkBox _ _ a :: rest => a :: offeredActions rest
  | .divider :: rest => offeredActions rest

theorem mem_optA (c : Prop) [Decidable c] (a b : Action) :
    a ∈ optA c b ↔ c ∧ a = b := by
  by_cases h : c <;> simp [optA, h]

theorem map_optA (g : Action → Action) (c : Prop) [Decidable c] (b : Action) :
    (optA c b).map g = optA c (g b) := by
  by_cases h : c <;> simp [optA, h]

theorem offeredActions_mbo (l : String) (b : Action) (e : Bool) (rest : List MenuItem) :
    offeredActions (menuButtonOptional l b e :: rest)
      = optA (e = true) b ++ offeredActions rest := by
  cases e <;> simp [menuButtonOptional, offeredActions, optA]

theorem bool_eq_of_iff {a b : Bool} (h : a = true ↔ b = true) : a = b := by
  cases a <;> cases b <;> simp_all

/-- C9: in the File menu built by `menu_bar`, the first three items — labeled
`new-tab`, `copy-tab` and `move-tab` — all dispatch `Action::TabNew`
(`src/menu.rs` lines 934–936), so for every input the three entries produce
identical actions. -/
theorem fileMenu_copyTab_moveTab_alias :
    ∀ selected selectedDir : Nat,
      (fileMenu selected selectedDir).take 3 =
        [MenuItem.button "new-tab" .tabNew, MenuItem.button "copy-tab" .tabNew,
          MenuItem.button "move-tab" .tabNew] :=
  fun _ _ => rfl

theorem mem_dedupConsec : ∀ (l : List String) (x : String), x ∈ dedupConsec l ↔ x ∈ l := by
  intro l
  induction l with
  | nil => intro x; simp [dedupConsec]
  | cons a t ih =>
      intro x
      cases t with
      | nil => simp [dedupConsec]
      | cons b rest =>
          by_cases hab : a = b
          · simp only [dedupConsec, if_pos hab]
            rw [ih x]
            subst hab
            simp [List.mem_cons]
          · simp only [dedupConsec, if_neg hab]
            simp [List.mem_cons, ih x]

theorem mem_processedTypes (sc : Scan) (x : String) :
    x ∈ processedTypes sc ↔ x ∈ sc.types := by
  unfold processedTypes
  rw [mem_dedupConsec]
  exact (List.perm_insertionSort _ sc.types).mem_iff

theorem retainedTypes_nil_iff (f : Features) (sc : Scan) :
    retainedTypes f sc = [] ↔
      sc.types.all (fun t => containsQ (supportedArchiveTypes f.bzip2 f.liblzma) t) = true := by
  unfold retainedTypes
  rw [List.filter_eq_nil_iff, List.all_eq_true]
  constructor
  · intro h t ht
    have hmem : t ∈ processedTypes sc := (mem_processedTypes sc t).mpr ht
    have := h t hmem
    simpa using this
  · intro h t ht
    have hmem : t ∈ sc.types := (mem_processedTypes sc t).mp ht
    simp [h t hmem]

/-- C3: the supported archive format set is exactly the enumerated set —
gzip, gzip-compressed tar, tar and zip, extended by the bzip2 variants
exactly when the `bzip2` feature is enabled and by the xz variants exactly
when the `liblzma` feature is enabled; and for a regular non-empty selection
(no trash item, no desktop entry) both context menus offer the extract
action if and only if every selected item's mime type belongs to this set. -/
theorem supported_formats_and_extract :
    (∀ (bz xz : Bool) (m : String),
        containsQ (supportedArchiveTypes bz xz) m =
          (containsQ ["application/gzip", "application/x-compressed-tar",
              "application/x-tar", "application/zip"] m
            || (bz && containsQ ["application/x-bzip",
                "application/x-bzip-compressed-tar"] m)
            || (xz && containsQ ["application/x-xz",
                "application/x-xz-compressed-tar"] m))) ∧
    (∀ (f : Features) (trashEntries : Nat) (tab : Tab),
        (tab.mode = .app ∨ tab.mode = .desktop) →
        (tab.location = .desktop ∨ tab.location = .path ∨ tab.location = .search ∨
          tab.location = .recents) →
        selectedTrashOnly (scanTab tab) = false →
        desktopEntryOpt f (scanTab tab) = none →
        0 < (scanTab tab).selected →
        (containsQ (ctxActions1 f trashEntries tab) .extractHere =
            (scanTab tab).types.all
              (fun t => containsQ (supportedArchiveTypes f.bzip2 f.liblzma) t) ∧
          containsQ (ctxActions2 f trashEntries tab) .extractHere =
            (scanTab tab).types.all
              (fun t => containsQ (supportedArchiveTypes f.bzip2 f.liblzma) t))) := by
  constructor
  · intro bz xz m
    cases bz <;> cases xz <;>
      simp [supportedArchiveTypes, containsQ, List.any_append, Bool.or_assoc]
  · intro f trashEntries tab hmode hloc htrash hdesk hsel
    have hmain1 : ctxActions1 f trashEntries tab = ctx1Selected f tab (scanTab tab) := by
      unfold ctxActions1 ctx1Main
      rcases hloc with hl | hl | hl | hl <;> rw [hl] <;>
        rcases hmode with hm | hm <;> rw [hm] <;>
          simp [htrash, hdesk, hsel]
    have hmain2 : ctxActions2 f trashEntries tab = ctx2Selected f tab (scanTab tab) := by
      unfold ctxActions2 ctx2Main
      rcases hloc with hl | hl | hl | hl <;> rw [hl] <;>
        rcases hmode with hm | hm <;> rw [hm] <;>
          simp [htrash, hdesk, hsel]
    rw [hmain1, hmain2]
    constructor
    · apply bool_eq_of_iff
      rw [containsQ_iff, ← retainedTypes_nil_iff f (scanTab tab)]
      simp [ctx1Selected, mem_optA]
    · apply bool_eq_of_iff
      rw [containsQ_iff, ← retainedTypes_nil_iff f (scanTab tab)]
      simp [ctx2Selected, mem_optA]

/-- The tab used to instantiate C3: a single selected tar file in a path
location. -/
def tabC3 : Tab :=
  ⟨.app, .path, some [⟨true, false, some (.path false), "application/x-tar", none, false⟩],
    true, .name, true, .list, false, false⟩

def featC3 : Features := ⟨false, false, false⟩

/-- Witness for C3 at a concrete selection: one selected item of mime type
`application/x-tar` in a path-location app-mode tab. -/
theorem supported_formats_and_extract_witness :
    containsQ (ctxActions1 featC3 0 tabC3) .extractHere =
        (scanTab tabC3).types.all
          (fun t => containsQ (supportedArchiveTypes featC3.bzip2 featC3.liblzma) t) ∧
      containsQ (ctxActions2 featC3 0 tabC3) .extractHere =
        (scanTab tabC3).types.all
          (fun t => containsQ (supportedArchiveTypes featC3.bzip2 featC3.liblzma) t) :=
  supported_formats_and_extract.2 featC3 0 tabC3 (Or.inl rfl) (Or.inr (Or.inl rfl))
    (by decide) (by decide) (by decide)

theorem foldl_trashOnly (items : List Item) :
    ∀ acc : Scan, (items.foldl scanStep acc).trashOnly = true →
      acc.trashOnly = true ∨
        ∃ it ∈ items, it.selected = true ∧ it.loc = some ItemLoc.trash := by
  induction items with
  | nil => intro acc h; exact Or.inl h
  | cons i t ih =>
      intro acc h
      rw [List.foldl_cons] at h
      rcases ih (scanStep acc i) h with hacc | ⟨it, hit, hsel, hloc⟩
      · by_cases hisel : i.selected = true
        · have hstep : (scanStep acc i).trashOnly = stepTrashOnly acc.trashOnly i := by
            simp [scanStep, hisel]
          rw [hstep] at hacc
          unfold stepTrashOnly at hacc
          cases hl : i.loc with
          | none => rw [hl] at hacc; exact Or.inl hacc
          | some l =>
              cases l with
              | trash => exact Or.inr ⟨i, by simp, hisel, hl⟩
              | path e => rw [hl] at hacc; exact Or.inl hacc
              | other => rw [hl] at hacc; exact Or.inl hacc
        · have hisel' : i.selected = false := by
            cases hx : i.selected
            · rfl
            · exact absurd hx hisel
          have hstep : scanStep acc i = acc := by simp [scanStep, hisel']
          rw [hstep] at hacc
          exact Or.inl hacc
      · exact Or.inr ⟨it, by simp [hit], hsel, hloc⟩

theorem scan_trashOnly_exists (items : List Item)
    (h : (scanItems items).trashOnly = true) :
    ∃ it ∈ items, it.selected = true ∧ it.loc = some ItemLoc.trash := by
  rcases foldl_trashOnly items scanInit h with hacc | hex
  · simp [scanInit] at hacc
  · exact hex

theorem emptyTrash_not_ctx1Selected (f : Features) (tab : Tab) (sc : Scan) :
    Action.emptyTrash ∉ ctx1Selected f tab sc := by
  simp [ctx1Selected, mem_optA]

theorem emptyTrash_not_ctx1Empty (tab : Tab) :
    Action.emptyTrash ∉ ctx1Empty tab := by
  simp [ctx1Empty, mem_optA]

theorem emptyTrash_not_ctx2Selected (f : Features) (tab : Tab) (sc : Scan) :
    Action.emptyTrash ∉ ctx2Selected f tab sc := by
  simp [ctx2Selected, mem_optA]

theorem emptyTrash_not_ctx2Empty (tab : Tab) :
    Action.emptyTrash ∉ ctx2Empty tab := by
  simp [ctx2Empty, mem_optA]

theorem emptyTrash_not_desktopBranch (nActs : Nat) :
    Action.emptyTrash ∉ ctxDesktopEntryBranch nActs := by
  simp [ctxDesktopEntryBranch]

theorem emptyTrash_mem_ctx1Main (f : Features) (te : Nat) (tab : Tab) (sc : Scan)
    (h : Action.emptyTrash ∈ ctx1Main f te tab sc) :
    selectedTrashOnly sc = true ∧ 0 < te := by
  unfold ctx1Main at h
  by_cases hto : selectedTrashOnly sc = true
  · rw [if_pos hto] at h
    refine ⟨hto, ?_⟩
    simpa [ctxTrashOnlyBranch, mem_optA] using h
  · rw [if_neg hto] at h
    exfalso
    cases hd : desktopEntryOpt f sc with
    | some nActs =>
        rw [hd] at h
        exact emptyTrash_not_desktopBranch nActs h
    | none =>
        rw [hd] at h
        by_cases hsel : 0 < sc.selected
        · rw [if_pos hsel] at h
          exact emptyTrash_not_ctx1Selected f tab sc h
        · rw [if_neg hsel] at h
          exact emptyTrash_not_ctx1Empty tab h

theorem emptyTrash_mem_ctx2Main (f : Features) (te : Nat) (tab : Tab) (sc : Scan)
    (h : Action.emptyTrash ∈ ctx2Main f te tab sc) :
    selectedTrashOnly sc = true ∧ 0 < te := by
  unfold ctx2Main at h
  by_cases hto : selectedTrashOnly sc = true
  · rw [if_pos hto] at h
    refine ⟨hto, ?_⟩
    simpa [ctxTrashOnlyBranch, mem_optA] using h
  · rw [if_neg hto] at h
    exfalso
    cases hd : desktopEntryOpt f sc with
    | some nActs =>
        rw [hd] at h
        exact emptyTrash_not_desktopBranch nActs h
    | none =>
        rw [hd] at h
        by_cases hsel : 0 < sc.selected
        · rw [if_pos hsel] at h
          exact emptyTrash_not_ctx2Selected f tab sc h
        · rw [if_neg hsel] at h
          exact emptyTrash_not_ctx2Empty tab h

theorem emptyTrash_mem_cases (f : Features) (te : Nat) (tab : Tab)
    (h : Action.emptyTrash ∈ ctxActions1 f te tab ∨
      Action.emptyTrash ∈ ctxActions2 f te tab) :
    selectedTrashOnly (scanTab tab) = true ∧ 0 < te := by
  obtain ⟨mo, lo, it, mu, sn, sd, vw, sh, ff⟩ := tab
  rcases h with h | h
  · cases lo <;> simp only [ctxActions1] at h
    case network => exfalso; unfold ctx1Network at h; split at h <;> simp [mem_optA] at h
    case trash =>
        exfalso
        unfold ctx1Trash at h
        split at h <;> simp [mem_optA, List.mem_append] at h
    all_goals
      cases mo <;> simp only at h
    case desktop.dialog s | path.dialog s | search.dialog s | recents.dialog s =>
        exfalso; unfold ctx1Dialog at h; split at h <;> simp [mem_optA, List.mem_append] at h
    all_goals exact emptyTrash_mem_ctx1Main _ _ _ _ h
  · cases lo <;> simp only [ctxActions2] at h
    case network => exfalso; unfold ctx2Network at h; split at h <;> simp [mem_optA] at h
    case trash =>
        exfalso
        unfold ctx2Trash at h
        split at h <;> simp [mem_optA, List.mem_append] at h
    all_goals
      cases mo <;> simp only at h
    case desktop.dialog s | path.dialog s | search.dialog s | recents.dialog s =>
        exfalso; unfold ctx2Dialog at h; split at h <;> simp [mem_optA, List.mem_append] at h
    all_goals exact emptyTrash_mem_ctx2Main _ _ _ _ h

/-- C6: empty-trash is a distinct, explicitly named action
(`Action::EmptyTrash`), never the regular move-to-trash delete; in the
context menus it appears only when exactly one item is selected, that item is
in the Trash location, and the trash contains at least one entry. -/
theorem emptyTrash_distinct_and_guarded :
    ∀ (f : Features) (te : Nat) (tab : Tab),
      (containsQ (ctxActions1 f te tab) .emptyTrash
        || containsQ (ctxActions2 f te tab) .emptyTrash) = true →
      (scanTab tab).selected = 1 ∧
      (∃ it ∈ tabItems tab, it.selected = true ∧ it.loc = some ItemLoc.trash) ∧
      0 < te ∧
      containsQ [Action.moveToTrash] Action.emptyTrash = false := by
  intro f te tab h
  rw [Bool.or_eq_true, containsQ_iff, containsQ_iff] at h
  obtain ⟨hto, hte⟩ := emptyTrash_mem_cases f te tab h
  have hand := hto
  unfold selectedTrashOnly at hand
  rw [Bool.and_eq_true] at hand
  obtain ⟨htrash, hsel⟩ := hand
  refine ⟨by simpa using hsel, ?_, hte, by decide⟩
  exact scan_trashOnly_exists (tabItems tab) htrash

/-- The tab used to instantiate C6: one selected trash item shown in a path
location (for example search results), with a non-empty trash. -/
def tabC6 : Tab :=
  ⟨.app, .path, some [⟨true, false, some .trash, "inode/directory", none, false⟩],
    true, .name, true, .list, false, false⟩

/-- Witness for C6 at a concrete tab where the empty-trash item is offered. -/
theorem emptyTrash_distinct_and_guarded_witness :
    (scanTab tabC6).selected = 1 ∧
      (∃ it ∈ tabItems tabC6, it.selected = true ∧ it.loc = some ItemLoc.trash) ∧
      0 < 1 ∧
      containsQ [Action.moveToTrash] Action.emptyTrash = false :=
  emptyTrash_distinct_and_guarded featC3 1 tabC6 (by decide)

theorem offeredActions_append (A B : List MenuItem) :
    offeredActions (A ++ B) = offeredActions A ++ offeredActions B := by
  induction A with
  | nil => rfl
  | cons x t ih => cases x <;> simp [offeredActions, ih]

theorem delete_mem_ctx1Main (f : Features) (te : Nat) (tab : Tab) (sc : Scan)
    (h : Action.deletePermanent ∈ ctx1Main f te tab sc) : False := by
  unfold ctx1Main at h
  by_cases hto : selectedTrashOnly sc = true
  · rw [if_pos hto] at h
    simp [ctxTrashOnlyBranch, mem_optA] at h
  · rw [if_neg hto] at h
    cases hd : desktopEntryOpt f sc with
    | some nActs => rw [hd] at h; simp [ctxDesktopEntryBranch] at h
    | none =>
        rw [hd] at h
        by_cases hsel : 0 < sc.selected
        · rw [if_pos hsel] at h; simp [ctx1Selected, mem_optA] at h
        · rw [if_neg hsel] at h; simp [ctx1Empty, mem_optA] at h

theorem delete_mem_ctx2Main (f : Features) (te : Nat) (tab : Tab) (sc : Scan)
    (h : Action.deletePermanent ∈ ctx2Main f te tab sc) : False := by
  unfold ctx2Main at h
  by_cases hto : selectedTrashOnly sc = true
  · rw [if_pos hto] at h
    simp [ctxTrashOnlyBranch, mem_optA] at h
  · rw [if_neg hto] at h
    cases hd : desktopEntryOpt f sc with
    | some nActs => rw [hd] at h; simp [ctxDesktopEntryBranch] at h
    | none =>
        rw [hd] at h
        by_cases hsel : 0 < sc.selected
        · rw [if_pos hsel] at h; simp [ctx2Selected, mem_optA] at h
        · rw [if_neg hsel] at h; simp [ctx2Empty, mem_optA] at h

theorem delete_mem_cases (f : Features) (te : Nat) (tab : Tab)
    (h : Action.deletePermanent ∈ ctxActions1 f te tab ∨
      Action.deletePermanent ∈ ctxActions2 f te tab) : False := by
  obtain ⟨mo, lo, it, mu, sn, sd, vw, sh, ff⟩ := tab
  rcases h with h | h
  · cases lo <;> simp only [ctxActions1] at h
    case network => unfold ctx1Network at h; split at h <;> simp [mem_optA] at h
    case trash => unfold ctx1Trash at h; split at h <;> simp [mem_optA, List.mem_append] at h
    all_goals
      cases mo <;> simp only at h
    case desktop.dialog s | path.dialog s | search.dialog s | recents.dialog s =>
        unfold ctx1Dialog at h; split at h <;> simp [mem_optA, List.mem_append] at h
    all_goals exact delete_mem_ctx1Main _ _ _ _ h
  · cases lo <;> simp only [ctxActions2] at h
    case network => unfold ctx2Network at h; split at h <;> simp [mem_optA] at h
    case trash => unfold ctx2Trash at h; split at h <;> simp [mem_optA, List.mem_append] at h
    all_goals
      cases mo <;> simp only at h
    case desktop.dialog s | path.dialog s | search.dialog s | recents.dialog s =>
        unfold ctx2Dialog at h; split at h <;> simp [mem_optA, List.mem_append] at h
    all_goals exact delete_mem_ctx2Main _ _ _ _ h

theorem restore_mem_ctx1Main (f : Features) (te : Nat) (tab : Tab) (sc : Scan)
    (h : Action.restoreFromTrash ∈ ctx1Main f te tab sc) : False := by
  unfold ctx1Main at h
  by_cases hto : selectedTrashOnly sc = true
  · rw [if_pos hto] at h
    simp [ctxTrashOnlyBranch, mem_optA] at h
  · rw [if_neg hto] at h
    cases hd : desktopEntryOpt f sc with
    | some nActs => rw [hd] at h; simp [ctxDesktopEntryBranch] at h
    | none =>
        rw [hd] at h
        by_cases hsel : 0 < sc.selected
        · rw [if_pos hsel] at h; simp [ctx1Selected, mem_optA] at h
        · rw [if_neg hsel] at h; simp [ctx1Empty, mem_optA] at h

theorem restore_mem_ctx2Main (f : Features) (te : Nat) (tab : Tab) (sc : Scan)
    (h : Action.restoreFromTrash ∈ ctx2Main f te tab sc) : False := by
  unfold ctx2Main at h
  by_cases hto : selectedTrashOnly sc = true
  · rw [if_pos hto] at h
    simp [ctxTrashOnlyBranch, mem_optA] at h
  · rw [if_neg hto] at h
    cases hd : desktopEntryOpt f sc with
    | some nActs => rw [hd] at h; simp [ctxDesktopEntryBranch] at h
    | none =>
        rw [hd] at h
        by_cases hsel : 0 < sc.selected
        · rw [if_pos hsel] at h; simp [ctx2Selected, mem_optA] at h
        · rw [if_neg hsel] at h; simp [ctx2Empty, mem_optA] at h

theorem restore_ctx1_eq (f : Features) (te : Nat) (tab : Tab) :
    containsQ (ctxActions1 f te tab) .restoreFromTrash
      = (decide (tab.location = Location.trash) && decide (0 < (scanTab tab).selected)) := by
  apply bool_eq_of_iff
  rw [containsQ_iff]
  obtain ⟨mo, lo, it, mu, sn, sd, vw, sh, ff⟩ := tab
  cases lo
  case trash =>
      simp only [ctxActions1]
      unfold ctx1Trash
      by_cases hsel : 0 < (scanTab ⟨mo, .trash, it, mu, sn, sd, vw, sh, ff⟩).selected
      · rw [if_pos hsel]
        simp [mem_optA, hsel]
      · rw [if_neg hsel]
        simp [mem_optA, hsel]
  case network =>
      simp only [ctxActions1]
      constructor
      · intro h
        exfalso
        unfold ctx1Network at h
        split at h <;> simp [mem_optA] at h
      · intro h
        exfalso
        simp at h
  all_goals
    constructor
  case desktop.mpr | path.mpr | search.mpr | recents.mpr =>
      intro h
      exfalso
      simp at h
  all_goals
    intro h
    exfalso
    simp only [ctxActions1] at h
    cases mo <;> simp only at h
  case desktop.mp.dialog s | path.mp.dialog s | search.mp.dialog s | recents.mp.dialog s =>
      unfold ctx1Dialog at h
      split at h <;> simp [mem_optA, List.mem_append] at h
  all_goals exact restore_mem_ctx1Main _ _ _ _ h

theorem restore_ctx2_eq (f : Features) (te : Nat) (tab : Tab) :
    containsQ (ctxActions2 f te tab) .restoreFromTrash
      = (decide (tab.location = Location.trash) && decide (0 < (scanTab tab).selected)) := by
  apply bool_eq_of_iff
  rw [containsQ_iff]
  obtain ⟨mo, lo, it, mu, sn, sd, vw, sh, ff⟩ := tab
  cases lo
  case trash =>
      simp only [ctxActions2]
      unfold ctx2Trash
      by_cases hsel : 0 < (scanTab ⟨mo, .trash, it, mu, sn, sd, vw, sh, ff⟩).selected
      · rw [if_pos hsel]
        simp [mem_optA, hsel]
      · rw [if_neg hsel]
        simp [mem_optA, hsel]
  case network =>
      simp only [ctxActions2]
      constructor
      · intro h
        exfalso
        unfold ctx2Network at h
        split at h <;> simp [mem_optA] at h
      · intro h
        exfalso
        simp at h
  all_goals
    constructor
  case desktop.mpr | path.mpr | search.mpr | recents.mpr =>
      intro h
      exfalso
      simp at h
  all_goals
    intro h
    exfalso
    simp only [ctxActions2] at h
    cases mo <;> simp only at h
  case desktop.mp.dialog s | path.mp.dialog s | search.mp.dialog s | recents.mp.dialog s =>
      unfold ctx2Dialog at h
      split at h <;> simp [mem_optA, List.mem_append] at h
  all_goals exact restore_mem_ctx2Main _ _ _ _ h

theorem menuBar_delete_restore (tabOpt : Option Tab) (showDetails : Bool) :
    containsQ (offeredActions (menuBarItems tabOpt showDetails)) .deletePermanent = false ∧
    containsQ (offeredActions (menuBarItems tabOpt showDetails)) .restoreFromTrash = false ∧
    containsQ (offeredActions (menuBarItems tabOpt showDetails)) .moveToTrash
      = decide (0 < (mbScan tabOpt).selected) := by
  refine ⟨?_, ?_, ?_⟩
  · rw [containsQ_false_iff]
    simp [menuBarItems, fileMenu, editMenu, viewMenu, sortMenu, offeredActions,
      offeredActions_mbo, offeredActions_append, mem_optA, List.mem_append]
  · rw [containsQ_false_iff]
    simp [menuBarItems, fileMenu, editMenu, viewMenu, sortMenu, offeredActions,
      offeredActions_mbo, offeredActions_append, mem_optA, List.mem_append]
  · apply bool_eq_of_iff
    rw [containsQ_iff]
    simp [menuBarItems, fileMenu, editMenu, viewMenu, sortMenu, offeredActions,
      offeredActions_mbo, offeredActions_append, mem_optA, List.mem_append]

/-- C7: every delete action offered by the menu bar and the context menus is
the recoverable move-to-trash: the permanent-delete operation kind is never
dispatched by any menu, the menu bar enables move-to-trash exactly when items
are selected, and restore-from-trash is offered exactly when the tab's
location is Trash and at least one item is selected (and never by the menu
bar). -/
theorem deletes_are_recoverable :
    ∀ (f : Features) (te : Nat) (tab : Tab) (tabOpt : Option Tab) (showDetails : Bool),
      containsQ (ctxActions1 f te tab) .deletePermanent = false ∧
      containsQ (ctxActions2 f te tab) .deletePermanent = false ∧
      containsQ (offeredActions (menuBarItems tabOpt showDetails)) .deletePermanent = false ∧
      containsQ (offeredActions (menuBarItems tabOpt showDetails)) .restoreFromTrash = false ∧
      containsQ (ctxActions1 f te tab) .restoreFromTrash
        = (decide (tab.location = Location.trash) && decide (0 < (scanTab tab).selected)) ∧
      containsQ (ctxActions2 f te tab) .restoreFromTrash
        = (decide (tab.location = Location.trash) && decide (0 < (scanTab tab).selected)) ∧
      containsQ (offeredActions (menuBarItems tabOpt showDetails)) .moveToTrash
        = decide (0 < (mbScan tabOpt).selected) := by
  intro f te tab tabOpt showDetails
  obtain ⟨hmb1, hmb2, hmb3⟩ := menuBar_delete_restore tabOpt showDetails
  refine ⟨?_, ?_, hmb1, hmb2, restore_ctx1_eq f te tab, restore_ctx2_eq f te tab, hmb3⟩
  · rw [containsQ_false_iff]
    intro h
    exact delete_mem_cases f te tab (Or.inl h)
  · rw [containsQ_false_iff]
    intro h
    exact delete_mem_cases f te tab (Or.inr h)

/-- Identify the per-pane sort toggles: `context_menu1` dispatches
`ToggleSortLeft` where `context_menu2` dispatches `ToggleSortRight`. -/
def normSort : Action → Action
  | .toggleSortRight v => .toggleSortLeft v
  | a => a

/-- The tab used to refute C10: an app-mode path tab with no items — the two
context menus take the empty-selection branch. -/
def tabC10 : Tab := ⟨.app, .path, none, true, .name, true, .list, false, false⟩

def featC10 : Features := ⟨false, false, false⟩

/-- Counterexample to C10 as stated: at one and the same tab state,
`context_menu1` dispatches `ToggleSortLeft(Name)` but `context_menu2` does
not (it dispatches `ToggleSortRight(Name)` instead), so the two menus' action
sets are not equal. -/
theorem ctx_menus_sort_sets_differ :
    containsQ (ctxActions1 featC10 0 tabC10) (.toggleSortLeft .name) = true ∧
      containsQ (ctxActions2 featC10 0 tabC10) (.toggleSortLeft .name) = false := by
  constructor <;> rfl

theorem normSet_network (tab : Tab) (sc : Scan) (a : Action) :
    a ∈ (ctx1Network tab sc).map normSort ↔ a ∈ (ctx2Network tab sc).map normSort := by
  unfold ctx1Network ctx2Network
  by_cases hsel : 0 < sc.selected
  · rw [if_pos hsel, if_pos hsel]
  · rw [if_neg hsel, if_neg hsel]
    simp [List.map_append, map_optA, normSort]

theorem normSet_trash (tab : Tab) (sc : Scan) (a : Action) :
    a ∈ (ctx1Trash tab sc).map normSort ↔ a ∈ (ctx2Trash tab sc).map normSort := by
  unfold ctx1Trash ctx2Trash
  by_cases hsel : 0 < sc.selected
  · rw [if_pos hsel, if_pos hsel]
  · rw [if_neg hsel, if_neg hsel]
    simp [List.map_append, map_optA, normSort]

theorem normSet_dialog (save : Bool) (tab : Tab) (sc : Scan) (a : Action) :
    a ∈ (ctx1Dialog save tab sc).map normSort ↔ a ∈ (ctx2Dialog save tab sc).map normSort := by
  unfold ctx1Dialog ctx2Dialog
  by_cases hsel : 0 < sc.selected
  · rw [if_pos hsel, if_pos hsel]
  · rw [if_neg hsel, if_neg hsel]
    simp [List.map_append, map_optA, normSort]

theorem perm_append_swap {α : Type} (A B C : List α) :
    (A ++ (B ++ C)).Perm (B ++ (A ++ C)) := by
  have h1 : (A ++ (B ++ C)) = (A ++ B) ++ C := (List.append_assoc A B C).symm
  have h2 : ((A ++ B) ++ C).Perm ((B ++ A) ++ C) :=
    List.Perm.append_right C List.perm_append_comm
  have h3 : (B ++ A) ++ C = B ++ (A ++ C) := List.append_assoc B A C
  rw [h1, ← h3]
  exact h2

theorem perm_tail_swap {α : Type} (T Z V S : List α) :
    (T ++ (Z ++ (V ++ S))).Perm (Z ++ (V ++ (S ++ T))) := by
  have h1 := perm_append_swap T Z (V ++ S)
  have h2 := List.Perm.append_left Z (perm_append_swap T V S)
  have h3 := List.Perm.append_left Z
    (List.Perm.append_left V (List.perm_append_comm : (T ++ S).Perm (S ++ T)))
  exact (h1.trans h2).trans h3

theorem perm_tail_swap2 {α : Type} (Z V T Y : List α) :
    (Z ++ (V ++ (T ++ Y))).Perm (T ++ (Z ++ (V ++ Y))) := by
  have h1 := List.Perm.append_left Z (perm_append_swap V T Y)
  have h2 := perm_append_swap Z T (V ++ Y)
  exact h1.trans h2

theorem normSet_selected_perm (f : Features) (tab : Tab) (sc : Scan) :
    ((ctx1Selected f tab sc).map normSort).Perm ((ctx2Selected f tab sc).map normSort) := by
  simp only [ctx1Selected, ctx2Selected, List.map_append, map_optA, List.map_cons,
    List.map_nil, normSort, List.append_assoc]
  refine List.Perm.append_left _ ?_
  refine List.Perm.append_left _ ?_
  refine List.Perm.append_left _ ?_
  refine List.Perm.append_left _ ?_
  refine List.Perm.append_left _ ?_
  refine List.Perm.append_left _ ?_
  refine List.Perm.append_left _ ?_
  refine List.Perm.append_left _ ?_
  refine List.Perm.append_left _ ?_
  refine List.Perm.append_left _ ?_
  refine List.Perm.append_left _ ?_
  exact perm_tail_swap _ _ _ _

theorem normSet_selected (f : Features) (tab : Tab) (sc : Scan) (a : Action) :
    a ∈ (ctx1Selected f tab sc).map normSort ↔ a ∈ (ctx2Selected f tab sc).map normSort :=
  (normSet_selected_perm f tab sc).mem_iff

theorem normSet_empty_perm (tab : Tab) :
    ((ctx1Empty tab).map normSort).Perm ((ctx2Empty tab).map normSort) := by
  simp only [ctx1Empty, ctx2Empty, List.map_append, map_optA, List.map_cons,
    List.map_nil, normSort, List.append_assoc]
  refine List.Perm.append_left _ ?_
  refine List.Perm.append_left _ ?_
  refine List.Perm.append_left _ ?_
  refine List.Perm.append_left _ ?_
  refine List.Perm.append_left _ ?_
  refine List.Perm.append_left _ ?_
  exact perm_tail_swap2 _ _ _ _

theorem normSet_empty (tab : Tab) (a : Action) :
    a ∈ (ctx1Empty tab).map normSort ↔ a ∈ (ctx2Empty tab).map normSort :=
  (normSet_empty_perm tab).mem_iff

theorem normSet_main (f : Features) (te : Nat) (tab : Tab) (sc : Scan) (a : Action) :
    a ∈ (ctx1Main f te tab sc).map normSort ↔ a ∈ (ctx2Main f te tab sc).map normSort := by
  unfold ctx1Main ctx2Main
  by_cases hto : selectedTrashOnly sc = true
  · rw [if_pos hto, if_pos hto]
  · rw [if_neg hto, if_neg hto]
    cases hd : desktopEntryOpt f sc with
    | some nActs => simp only [hd]
    | none =>
        simp only [hd]
        by_cases hsel : 0 < sc.selected
        · rw [if_pos hsel, if_pos hsel]
          exact normSet_selected f tab sc a
        · rw [if_neg hsel, if_neg hsel]
          exact normSet_empty tab a

/-- C10 amended: for every tab state, `context_menu1` and `context_menu2`
offer the same set of menu actions up to the pane-specific sort toggle —
after identifying `ToggleSortLeft` with `ToggleSortRight` (`context_menu1`
dispatches the left toggles, `context_menu2` the right ones), the sets of
dispatched actions are equal, though item order differs. -/
theorem ctx_menus_equivalent_up_to_sort :
    ∀ (f : Features) (te : Nat) (tab : Tab) (a : Action),
      containsQ ((ctxActions1 f te tab).map normSort) a
        = containsQ ((ctxActions2 f te tab).map normSort) a := by
  intro f te tab a
  apply bool_eq_of_iff
  rw [containsQ_iff, containsQ_iff]
  obtain ⟨mo, lo, it, mu, sn, sd, vw, sh, ff⟩ := tab
  cases lo
  case network =>
      simp only [ctxActions1, ctxActions2]
      exact normSet_network _ _ a
  case trash =>
      simp only [ctxActions1, ctxActions2]
      exact normSet_trash _ _ a
  all_goals
    simp only [ctxActions1, ctxActions2]
  all_goals
    cases mo <;> simp only
  case desktop.dialog s | path.dialog s | search.dialog s | recents.dialog s =>
      exact normSet_dialog s _ _ a
  all_goals exact normSet_main _ _ _ _ a

end Commander
